import Mathlib

/-!
Verification of the messaging / presence core of the career-guidance
backend (`backend/controllers/messageController.js`, `backend/server.js`).

User and message documents are embedded as Lean structures; the Mongo
collections become Lean lists kept in insertion order, with a monotone
counter standing for the `createdAt` timestamps.  Mongo ObjectIds become
`Nat`.  `find` with a `sort` clause is embedded as `List.filter` followed
by `List.insertionSort` on the sort key.  The locale- and wall-clock
dependent recency-label formatting (lines 266-287 of the controller) is
abstracted as a function parameter `fmt : Message → String`, since no
verified property depends on the label text; `localeCompare` is embedded
as the code-point order on `String`.
-/

/-- A user document.  `role` is one of `"user"`, `"mentor"`, `"admin"` (the
switch in `getChatContacts` has a default branch for anything else).
`mentor` is the optional assigned-mentor back-reference.  Presentation-only
fields (`profileImage`, `lastSeen`, `email`, ...) are omitted: no claim
mentions them. -/
structure User where
  id : Nat
  fullName : String
  role : String
  mentor : Option Nat
deriving Repr, DecidableEq

/-- A message document, per the `Message` schema described in the data
model: sender id, recipient id, content, a `read` flag whose schema default
is `false` (the schema file itself is not under `src/`; the default is
modelled from the spec, §3), and the creation timestamp. -/
structure Message where
  sender : Nat
  recipient : Nat
  content : String
  read : Bool
  createdAt : Nat
deriving Repr, DecidableEq

/-- The persisted state: the `User` collection, the `Message` collection in
insertion order, and a monotone clock supplying `createdAt` values. -/
structure Store where
  users : List User
  messages : List Message
  nextTime : Nat
deriving Repr, DecidableEq

/-- `User.findById`: the first user with the given id. -/
def findUser (users : List User) (uid : Nat) : Option User :=
  users.find? (fun u => u.id == uid)

/-- A structured HTTP failure: status code and message, as set by
`res.status(...)` followed by `throw new Error(...)`. -/
structure ErrResp where
  status : Nat
  message : String
deriving Repr, DecidableEq

/-- Ascending `createdAt` order (`.sort({ createdAt: 1 })`). -/
def msgLe (m1 m2 : Message) : Prop := m1.createdAt ≤ m2.createdAt

/-- Descending `createdAt` order (`.sort({ createdAt: -1 })`). -/
def msgGe (m1 m2 : Message) : Prop := m2.createdAt ≤ m1.createdAt

instance : DecidableRel msgLe := fun _ _ => Nat.decLe _ _

instance : DecidableRel msgGe := fun _ _ => Nat.decLe _ _

instance : IsTotal Message msgLe := ⟨fun m1 m2 => Nat.le_total m1.createdAt m2.createdAt⟩

instance : IsTrans Message msgLe := ⟨fun _ _ _ h1 h2 => Nat.le_trans h1 h2⟩

instance : IsTotal Message msgGe := ⟨fun m1 m2 => Nat.le_total m2.createdAt m1.createdAt⟩

instance : IsTrans Message msgGe := ⟨fun _ _ _ h1 h2 => Nat.le_trans h2 h1⟩

/-- `sendMessage` (controller lines 8-39).  The request body may lack
`recipientId` (hence `Option Nat`); an empty `content` string is falsy in
`!recipientId || !content`.  Returns the response together with the
(possibly updated) store; on any failure the store is unchanged. -/
def sendMessage (st : Store) (senderId : Nat) (recipientId : Option Nat)
    (content : String) : Except ErrResp Message × Store :=
  match recipientId with
  | none => (.error ⟨400, "Please provide recipient and message content"⟩, st)
  | some rid =>
    if content = "" then
      (.error ⟨400, "Please provide recipient and message content"⟩, st)
    else
      match findUser st.users rid with
      | none => (.error ⟨404, "Recipient not found"⟩, st)
      | some _ =>
        let msg : Message :=
          { sender := senderId, recipient := rid, content := content,
            read := false, createdAt := st.nextTime }
        (.ok msg,
         { st with messages := st.messages ++ [msg], nextTime := st.nextTime + 1 })

/-- The `$or` filter of `getConversation`: message between `a` and `b`
in either direction. -/
def betweenFilter (a b : Nat) (m : Message) : Bool :=
  (m.sender == a && m.recipient == b) || (m.sender == b && m.recipient == a)

/-- The `updateMany({sender: userId, recipient: req.user.id, read: false},
{read: true})` write of `getConversation`, applied document-wise. -/
def markReadFrom (userId callerId : Nat) (m : Message) : Message :=
  if m.sender == userId && m.recipient == callerId && m.read == false then
    { m with read := true }
  else m

/-- `getConversation` (controller lines 44-75).  `callerId` is
`req.user.id`, `userId` the path parameter.  The messages are queried and
sorted ascending by `createdAt` BEFORE the `updateMany` that marks unread
incoming messages read, so the returned array carries the pre-update
`read` flags. -/
def getConversation (st : Store) (callerId userId : Nat) :
    Except ErrResp (List Message) × Store :=
  match findUser st.users userId with
  | none => (.error ⟨404, "User not found"⟩, st)
  | some _ =>
    let msgs := List.insertionSort msgLe
      (st.messages.filter (betweenFilter callerId userId))
    (.ok msgs,
     { st with messages := st.messages.map (markReadFrom userId callerId) })

/-- JS `Set.add`: append if not already present (`Set` keeps insertion
order). -/
def addUnique (l : List Nat) (x : Nat) : List Nat :=
  if x ∈ l then l else l ++ [x]

/-- One step of the `messages.forEach` in `getChatContacts` collecting the
ids of prior conversation partners: add the sender and the recipient of the
message, each when different from the current user. -/
def partnerStep (me : Nat) (acc : List Nat) (m : Message) : List Nat :=
  let acc1 := if m.sender ≠ me then addUnique acc m.sender else acc
  if m.recipient ≠ me then addUnique acc1 m.recipient else acc1

/-- `getChatContacts` lines 153-169: ids of all users the current user has
exchanged messages with, collected from the messages sorted descending by
`createdAt`. -/
def messagePartnerIds (st : Store) (me : Nat) : List Nat :=
  (List.insertionSort msgGe
      (st.messages.filter (fun m => m.sender == me || m.recipient == me))).foldl
    (partnerStep me) []

/-- The role-dependent branch of `getChatContacts` (lines 179-230): the
switch over `currentUser.role`.  The `catch` fallback (lines 231-237) is
unreachable in this pure embedding since no persistence error can occur. -/
def roleContacts (st : Store) (cu : User) : List User :=
  if cu.role = "user" then
    (match cu.mentor with
      | some mid =>
        match findUser st.users mid with
        | some m => [m]
        | none => []
      | none => []) ++
    st.users.filter (fun u => u.role == "admin") ++
    st.users.filter (fun u => u.role == "mentor")
  else if cu.role = "mentor" then
    st.users.filter (fun u => u.mentor == some cu.id) ++
    st.users.filter (fun u => u.role == "admin") ++
    st.users.filter (fun u => u.role == "user")
  else if cu.role = "admin" then
    st.users.filter (fun u => !(u.id == cu.id))
  else
    st.users.filter (fun u => u.role == "admin")

/-- Lines 240-247: start from the prior-conversation contacts and append
each role-derived contact whose id is not already present. -/
def mergeContacts (withMsgs roleCs : List User) : List User :=
  roleCs.foldl
    (fun acc c => if acc.any (fun x => x.id == c.id) then acc else acc ++ [c])
    withMsgs

/-- The per-contact record assembled at lines 289-296 of the controller. -/
structure ContactView where
  id : Nat
  fullName : String
  role : String
  unreadCount : Nat
  lastMessageTime : String
deriving Repr, DecidableEq

/-- `Message.countDocuments({sender, recipient, read: false})`. -/
def unreadFromTo (st : Store) (senderId recipientId : Nat) : Nat :=
  (st.messages.filter
    (fun m => m.sender == senderId && m.recipient == recipientId && m.read == false)).length

/-- `Message.findOne({$or: [...]}).sort({createdAt: -1})`: the most recent
message between the two users. -/
def latestMessageBetween (st : Store) (a b : Nat) : Option Message :=
  (List.insertionSort msgGe (st.messages.filter (betweenFilter a b))).head?

/-- Lines 250-297: annotate one contact with its unread count and recency
label.  `fmt` abstracts the wall-clock/locale label formatting of lines
267-287; when no message exists the label is the empty string. -/
def contactStats (fmt : Message → String) (st : Store) (me : Nat) (c : User) :
    ContactView :=
  { id := c.id, fullName := c.fullName, role := c.role,
    unreadCount := unreadFromTo st c.id me,
    lastMessageTime :=
      match latestMessageBetween st me c.id with
      | some m => fmt m
      | none => "" }

/-- `String.prototype.localeCompare` embedded as the code-point order:
negative, zero or positive according to the comparison. -/
def strCmpInt (x y : String) : Int :=
  if x < y then -1 else if x = y then 0 else 1

/-- The sort comparator of lines 300-317: unread count descending, then
(when both labels are non-empty, i.e. truthy) label string descending, then
labelled before unlabelled, then display name ascending. -/
def contactCmp (a b : ContactView) : Int :=
  if b.unreadCount ≠ a.unreadCount then
    (b.unreadCount : Int) - (a.unreadCount : Int)
  else if a.lastMessageTime ≠ "" ∧ b.lastMessageTime ≠ "" then
    strCmpInt b.lastMessageTime a.lastMessageTime
  else if a.lastMessageTime ≠ "" ∧ b.lastMessageTime = "" then -1
  else if a.lastMessageTime = "" ∧ b.lastMessageTime ≠ "" then 1
  else strCmpInt a.fullName b.fullName

/-- `a` may be placed before `b` by the comparator. -/
def contactLE (a b : ContactView) : Prop := contactCmp a b ≤ 0

instance : DecidableRel contactLE := fun _ _ => Int.decLe _ _

/-- `Array.prototype.sort` with `contactCmp`, embedded as a comparison
sort with respect to `contactLE`. -/
def sortContacts (l : List ContactView) : List ContactView :=
  List.insertionSort contactLE l

/-- Lines 171-176 of the controller: the `contactsWithMessages` query —
when at least one prior conversation partner exists, the users whose id is
among the collected partner ids; otherwise the empty list. -/
def contactsWithMessages (st : Store) (me : Nat) : List User :=
  if (messagePartnerIds st me).length > 0 then
    st.users.filter (fun u => (messagePartnerIds st me).contains u.id)
  else []

/-- The contact-list sort order as the spec words it, for comparison with
the comparator embedded from the source: primary key unread count
descending; among equal unread counts, two labelled candidates ordered by
label string descending; a labelled candidate before an unlabelled one;
two unlabelled candidates ordered by display name ascending. -/
def specContactLE (a b : ContactView) : Prop :=
  b.unreadCount < a.unreadCount ∨
  (b.unreadCount = a.unreadCount ∧
    ((a.lastMessageTime ≠ "" ∧ b.lastMessageTime ≠ "" ∧
        b.lastMessageTime ≤ a.lastMessageTime) ∨
     (a.lastMessageTime ≠ "" ∧ b.lastMessageTime = "") ∨
     (a.lastMessageTime = "" ∧ b.lastMessageTime = "" ∧
        a.fullName ≤ b.fullName)))

instance : DecidableRel specContactLE := fun _ _ => by
  unfold specContactLE; infer_instance

/-- `getChatContacts` (controller lines 147-323).  Returns `none` when the
requesting user does not exist (the controller would crash dereferencing
`currentUser._id`). -/
def getChatContacts (fmt : Message → String) (st : Store) (meId : Nat) :
    Option (List ContactView) :=
  match findUser st.users meId with
  | none => none
  | some cu =>
    let merged := mergeContacts (contactsWithMessages st cu.id) (roleContacts st cu)
    some (sortContacts (merged.map (contactStats fmt st cu.id)))

/-- JS `Map.set` on a map embedded as an association list in insertion
order: replace the entry in place when the key is present, append
otherwise. -/
def setEntry {α β : Type} [BEq α] (l : List (α × β)) (k : α) (v : β) :
    List (α × β) :=
  if l.any (fun e => e.1 == k) then
    l.map (fun e => if e.1 == k then (k, v) else e)
  else l ++ [(k, v)]

/-- Throttle cache of `markMessagesAsRead`: the `readOperationsCache` map
keyed by the string `recipientId-senderId`, embedded as the pair
`(recipientId, senderId)`, holding the timestamp of the last processed
request. -/
structure ReadCache where
  entries : List ((Nat × Nat) × Nat)
deriving Repr, DecidableEq

/-- `readOperationsCache.get(key) || 0`. -/
def cacheGet (c : ReadCache) (k : Nat × Nat) : Nat :=
  match c.entries.find? (fun e => e.1 == k) with
  | some e => e.2
  | none => 0

/-- `readOperationsCache.set(cacheKey, now)`. -/
def cacheSet (c : ReadCache) (k : Nat × Nat) (v : Nat) : ReadCache :=
  ⟨setEntry c.entries k v⟩

/-- The cleanup loop of lines 354-358: drop entries older than one
minute. -/
def cacheCleanup (c : ReadCache) (now : Nat) : ReadCache :=
  ⟨c.entries.filter (fun e => !(now - e.2 > 60000))⟩

/-- The three responses `markMessagesAsRead` can produce: the throttled
`{success: true, count: 0, cached: true}` 200, the normal
`{success: true, count}` 200, and the 404 `Sender not found` failure. -/
inductive MarkResp
  | throttled
  | updated (count : Nat)
  | senderNotFound
deriving Repr, DecidableEq

/-- `markMessagesAsRead` (controller lines 331-378).  The throttle check
runs first; only past it are the cache refreshed/cleaned, the sender
looked up, and the `updateMany` performed.  `now` is `Date.now()`; JS
`now - last < 5000` on numbers agrees with truncated `Nat` subtraction
here.  Returns the response with the resulting store and cache. -/
def markMessagesAsRead (st : Store) (cache : ReadCache)
    (now senderId recipientId : Nat) : MarkResp × Store × ReadCache :=
  let key := (recipientId, senderId)
  let lastOperation := cacheGet cache key
  if now - lastOperation < 5000 then
    (.throttled, st, cache)
  else
    let cache1 := cacheCleanup (cacheSet cache key now) now
    match findUser st.users senderId with
    | none => (.senderNotFound, st, cache1)
    | some _ =>
      let count :=
        (st.messages.filter
          (fun m => m.sender == senderId && m.recipient == recipientId
            && m.read == false)).length
      (.updated count,
       { st with messages := st.messages.map (markReadFrom senderId recipientId) },
       cache1)

/-- The value stored in the `onlineUsers` map (`server.js` line 122):
`{userId, userRole, socketId, lastActive}`. -/
structure ConnInfo where
  userId : Nat
  userRole : String
  socketId : Nat
  lastActive : Nat
deriving Repr, DecidableEq

/-- The `onlineUsers` map, embedded as an association list in insertion
order (JS `Map` iteration order). -/
structure Registry where
  entries : List (Nat × ConnInfo)
deriving Repr, DecidableEq

/-- `onlineUsers.set(userId, info)` on connection (lines 129-134). -/
def registerConn (reg : Registry) (uid : Nat) (info : ConnInfo) : Registry :=
  ⟨setEntry reg.entries uid info⟩

/-- `onlineUsers.delete(userId)` in the disconnect handler (line 196). -/
def unregisterConn (reg : Registry) (uid : Nat) : Registry :=
  ⟨reg.entries.filter (fun e => !(e.1 == uid))⟩

/-- `Array.from(onlineUsers.keys())`: the broadcast online-user list. -/
def listOnline (reg : Registry) : List Nat :=
  reg.entries.map (fun e => e.1)

/-- `onlineUsers.get(userId)`. -/
def lookupConn (reg : Registry) (uid : Nat) : Option ConnInfo :=
  (reg.entries.find? (fun e => e.1 == uid)).map (fun e => e.2)

/-- A registry mutation: a connection (handshake already authenticated) or
a disconnect. -/
inductive RegOp
  | connect (uid : Nat) (info : ConnInfo)
  | disconnect (uid : Nat)

/-- Apply one registry mutation. -/
def applyRegOp (r : Registry) : RegOp → Registry
  | .connect uid info => registerConn r uid info
  | .disconnect uid => unregisterConn r uid

/-- The registry reached from the empty map by a sequence of
connect/disconnect events. -/
def applyRegOps (ops : List RegOp) : Registry :=
  ops.foldl applyRegOp ⟨[]⟩

/-- The socket payload of a `send_message` event as far as the server
reads it: `message._id` and `message.recipient._id`; `recipientId = none`
models a payload whose `recipient` object or `recipient._id` is missing
(the falsy guard at line 155). -/
structure WireMessage where
  mid : Nat
  recipientId : Option Nat
deriving Repr, DecidableEq

/-- Events the `send_message` handler emits: a `new_message` into the
recipient's personal room, and the `message_sent` acknowledgment to the
sender's own socket. -/
inductive SocketEvent
  | newMessage (room : Nat) (msg : WireMessage)
  | messageSent (toSocket : Nat) (messageId : Nat) (recipientId : Nat)
      (timestamp : Nat)
deriving Repr, DecidableEq

/-- Lines 161-165: refresh the sender's `lastActive` when the sender is in
the registry. -/
def touchLastActive (reg : Registry) (uid now : Nat) : Registry :=
  match lookupConn reg uid with
  | some info => registerConn reg uid { info with lastActive := now }
  | none => reg

/-- The `send_message` handler (`server.js` lines 154-179).  An invalid
payload is logged and dropped (no events); otherwise a `new_message` is
emitted to the recipient's room and a `message_sent` acknowledgment with
message id, recipient id and a server timestamp is always emitted to the
sender's socket. -/
def handleSendMessage (reg : Registry) (senderUid senderSocket now : Nat)
    (msg : WireMessage) : List SocketEvent × Registry :=
  match msg.recipientId with
  | none => ([], reg)
  | some rid =>
    let reg1 := touchLastActive reg senderUid now
    ([.newMessage rid msg, .messageSent senderSocket msg.mid rid now], reg1)

/-- Sockets subscribed to a personal room: each connection joins the room
named by its own user id (`socket.join(socket.userId)`, line 137), so room
`r` reaches exactly the registered socket of user `r`. -/
def roomMembers (reg : Registry) (room : Nat) : List Nat :=
  (reg.entries.filter (fun e => e.1 == room)).map (fun e => e.2.socketId)

example :
    sendMessage ⟨[⟨1, "A", "user", none⟩, ⟨2, "B", "user", none⟩], [], 0⟩
      1 (some 2) "Hello"
    = (.ok ⟨1, 2, "Hello", false, 0⟩,
       ⟨[⟨1, "A", "user", none⟩, ⟨2, "B", "user", none⟩],
        [⟨1, 2, "Hello", false, 0⟩], 1⟩) := rfl

example :
    getConversation
      ⟨[⟨1, "A", "user", none⟩, ⟨2, "B", "user", none⟩],
       [⟨1, 2, "Hello", false, 0⟩], 1⟩ 2 1
    = (.ok [⟨1, 2, "Hello", false, 0⟩],
       ⟨[⟨1, "A", "user", none⟩, ⟨2, "B", "user", none⟩],
        [⟨1, 2, "Hello", true, 0⟩], 1⟩) := rfl

/-! ### Association-list lemmas for the JS `Map` embedding -/

theorem find?_eq_of_unique {α β : Type} [BEq α] [LawfulBEq α]
    (l : List (α × β)) (k : α) (v : β)
    (huniq : ∀ e ∈ l, e.1 = k → e = (k, v)) (hmem : (k, v) ∈ l) :
    l.find? (fun e => e.1 == k) = some (k, v) := by
  induction l with
  | nil => cases hmem
  | cons e tl IH =>
    by_cases he : e.1 = k
    · have heq : e = (k, v) := huniq e (List.mem_cons_self e tl) he
      rw [List.find?_cons_of_pos _ (by simp [he])]
      rw [heq]
    · rw [List.find?_cons_of_neg _ (by simp [he])]
      apply IH
      · intro x hx hk
        exact huniq x (List.mem_cons_of_mem e hx) hk
      · rcases List.mem_cons.mp hmem with h | h
        · exact absurd (h ▸ rfl : e.1 = k) he
        · exact h

theorem setEntry_key_unique {α β : Type} [BEq α] [LawfulBEq α]
    (l : List (α × β)) (k : α) (v : β) :
    ∀ e ∈ setEntry l k v, e.1 = k → e = (k, v) := by
  intro e he hk
  unfold setEntry at he
  by_cases h : l.any (fun e => e.1 == k) = true
  · rw [if_pos h] at he
    obtain ⟨e0, he0, rfl⟩ := List.mem_map.mp he
    by_cases h0 : (e0.1 == k) = true
    · rw [if_pos h0]
    · rw [if_neg h0] at hk ⊢
      exact absurd hk (by simpa using h0)
  · rw [if_neg h] at he
    rcases List.mem_append.mp he with h1 | h1
    · exact absurd (List.any_eq_true.mpr ⟨e, h1, by simp [hk]⟩) h
    · simpa using h1

theorem mem_setEntry {α β : Type} [BEq α] [LawfulBEq α]
    (l : List (α × β)) (k : α) (v : β) : (k, v) ∈ setEntry l k v := by
  unfold setEntry
  by_cases h : l.any (fun e => e.1 == k) = true
  · rw [if_pos h]
    obtain ⟨e0, he0, hk0⟩ := List.any_eq_true.mp h
    exact List.mem_map.mpr ⟨e0, he0, by simp [hk0]⟩
  · rw [if_neg h]
    exact List.mem_append.mpr (Or.inr (by simp))

theorem find?_setEntry {α β : Type} [BEq α] [LawfulBEq α]
    (l : List (α × β)) (k : α) (v : β) :
    (setEntry l k v).find? (fun e => e.1 == k) = some (k, v) :=
  find?_eq_of_unique _ _ _ (setEntry_key_unique l k v) (mem_setEntry l k v)

theorem keys_setEntry_of_mem {α β : Type} [BEq α] [LawfulBEq α]
    (l : List (α × β)) (k : α) (v : β)
    (h : l.any (fun e => e.1 == k) = true) :
    (setEntry l k v).map Prod.fst = l.map Prod.fst := by
  unfold setEntry
  rw [if_pos h, List.map_map]
  apply List.map_congr_left
  intro e _
  simp only [Function.comp_apply]
  by_cases h0 : (e.1 == k) = true
  · rw [if_pos h0]
    exact (eq_of_beq h0).symm
  · rw [if_neg h0]

theorem keys_setEntry_of_not_mem {α β : Type} [BEq α] [LawfulBEq α]
    (l : List (α × β)) (k : α) (v : β)
    (h : ¬ l.any (fun e => e.1 == k) = true) :
    (setEntry l k v).map Prod.fst = l.map Prod.fst ++ [k] := by
  unfold setEntry
  rw [if_neg h, List.map_append]
  rfl

theorem nodup_keys_setEntry {α β : Type} [BEq α] [LawfulBEq α]
    (l : List (α × β)) (k : α) (v : β)
    (hn : (l.map Prod.fst).Nodup) : ((setEntry l k v).map Prod.fst).Nodup := by
  by_cases h : l.any (fun e => e.1 == k) = true
  · rw [keys_setEntry_of_mem l k v h]
    exact hn
  · rw [keys_setEntry_of_not_mem l k v h]
    have hk : k ∉ l.map Prod.fst := by
      intro hmem
      obtain ⟨e, he, hke⟩ := List.mem_map.mp hmem
      exact h (List.any_eq_true.mpr ⟨e, he, by simp [hke]⟩)
    exact (List.perm_append_singleton k _).symm.nodup
      (List.nodup_cons.mpr ⟨hk, hn⟩)

/-! ### Registry lemmas -/

theorem lookupConn_registerConn (reg : Registry) (u : Nat) (i : ConnInfo) :
    lookupConn (registerConn reg u i) u = some i := by
  unfold lookupConn registerConn
  rw [find?_setEntry]
  rfl

theorem mem_listOnline_register (reg : Registry) (u : Nat) (i : ConnInfo) :
    u ∈ listOnline (registerConn reg u i) :=
  List.mem_map.mpr ⟨(u, i), mem_setEntry _ _ _, rfl⟩

theorem nodup_listOnline_register (reg : Registry) (u : Nat) (i : ConnInfo)
    (hn : (listOnline reg).Nodup) :
    (listOnline (registerConn reg u i)).Nodup :=
  nodup_keys_setEntry reg.entries u i hn

theorem nodup_listOnline_unregister (reg : Registry) (u : Nat)
    (hn : (listOnline reg).Nodup) :
    (listOnline (unregisterConn reg u)).Nodup :=
  hn.sublist ((List.filter_sublist reg.entries).map _)

theorem not_mem_listOnline_unregister (reg : Registry) (u : Nat) :
    u ∉ listOnline (unregisterConn reg u) := by
  intro hmem
  obtain ⟨e, he, hke⟩ := List.mem_map.mp hmem
  have h2 := (List.mem_filter.mp he).2
  simp [hke] at h2

theorem nodup_listOnline_applyRegOps (ops : List RegOp) :
    (listOnline (applyRegOps ops)).Nodup := by
  suffices h : ∀ (l : List RegOp) (r : Registry), (listOnline r).Nodup →
      (listOnline (l.foldl applyRegOp r)).Nodup by
    exact h ops ⟨[]⟩ (by simp [listOnline])
  intro l
  induction l with
  | nil => intro r h; exact h
  | cons op tl IH =>
    intro r h
    apply IH
    cases op with
    | connect uid info => exact nodup_listOnline_register r uid info h
    | disconnect uid => exact nodup_listOnline_unregister r uid h

/-- C8: the connection registry keeps at most one record per user id after
every sequence of connect/disconnect operations; re-registering a user
replaces the mapping, so after two registrations with different session
info the online list contains the user exactly once and the registry maps
the user to the newest info; unregistering removes the entry. -/
theorem C8_registry_single_record (ops : List RegOp) (u : Nat)
    (i1 i2 : ConnInfo) :
    (listOnline (applyRegOps ops)).Nodup
    ∧ (listOnline (registerConn (registerConn (applyRegOps ops) u i1) u i2)).count u = 1
    ∧ lookupConn (registerConn (registerConn (applyRegOps ops) u i1) u i2) u = some i2
    ∧ u ∉ listOnline (unregisterConn (registerConn (applyRegOps ops) u i1) u) := by
  have h0 := nodup_listOnline_applyRegOps ops
  have h2 : (listOnline (registerConn (registerConn (applyRegOps ops) u i1) u i2)).Nodup :=
    nodup_listOnline_register _ u i2 (nodup_listOnline_register _ u i1 h0)
  exact ⟨h0,
    List.count_eq_one_of_mem h2 (mem_listOnline_register _ u i2),
    lookupConn_registerConn _ u i2,
    not_mem_listOnline_unregister _ u⟩

/-- C9: for every `send_message` payload carrying a recipient id, the
handler emits the `new_message` into the recipient's room and always emits
a `message_sent` acknowledgment with message id, recipient id and server
timestamp to the sender's own socket — and exactly those two events, so no
error is signalled in any case; when the recipient is not registered the
recipient's room has no members, making the delivery a silent no-op. -/
theorem C9_ack_always_sent (reg : Registry) (senderUid senderSocket now : Nat)
    (msg : WireMessage) (rid : Nat) (hmsg : msg.recipientId = some rid) :
    (handleSendMessage reg senderUid senderSocket now msg).1
      = [SocketEvent.newMessage rid msg,
         SocketEvent.messageSent senderSocket msg.mid rid now]
    ∧ (rid ∉ listOnline reg → roomMembers reg rid = []) := by
  constructor
  · simp [handleSendMessage, hmsg]
  · intro hoff
    unfold roomMembers
    have hnil : reg.entries.filter (fun e => e.1 == rid) = [] := by
      rw [List.filter_eq_nil_iff]
      intro e he hke
      exact hoff (List.mem_map.mpr ⟨e, he, eq_of_beq hke⟩)
    rw [hnil]
    rfl

/-- C9 witness: a concrete payload with recipient id 2 sent while the
registry is empty. -/
theorem C9_ack_always_sent_witness :
    (handleSendMessage ⟨[]⟩ 1 10 99 ⟨5, some 2⟩).1
      = [SocketEvent.newMessage 2 ⟨5, some 2⟩,
         SocketEvent.messageSent 10 5 2 99]
    ∧ (2 ∉ listOnline ⟨[]⟩ → roomMembers ⟨[]⟩ 2 = []) :=
  C9_ack_always_sent ⟨[]⟩ 1 10 99 ⟨5, some 2⟩ 2 rfl

/-- C10: the throttle check of `markMessagesAsRead` runs before the
sender-existence check: within the throttle window the handler reports the
cached success untouched by the user store — for every store, including one
where the sender id resolves to no user — while outside the window a
missing sender fails with the 404 response (after the cache was already
refreshed). -/
theorem C10_throttle_before_existence (st : Store) (cache : ReadCache)
    (now senderId recipientId : Nat) :
    (now - cacheGet cache (recipientId, senderId) < 5000 →
      markMessagesAsRead st cache now senderId recipientId
        = (MarkResp.throttled, st, cache))
    ∧ (¬ now - cacheGet cache (recipientId, senderId) < 5000 →
      findUser st.users senderId = none →
      markMessagesAsRead st cache now senderId recipientId
        = (MarkResp.senderNotFound, st,
           cacheCleanup (cacheSet cache (recipientId, senderId) now) now)) := by
  constructor
  · intro h
    simp [markMessagesAsRead, h]
  · intro h hf
    simp [markMessagesAsRead, h, hf]

/-! ### Read-marking lemmas -/

theorem cacheGet_set_cleanup (c : ReadCache) (k : Nat × Nat) (v : Nat) :
    cacheGet (cacheCleanup (cacheSet c k v) v) k = v := by
  have hfind : (cacheCleanup (cacheSet c k v) v).entries.find? (fun e => e.1 == k)
      = some (k, v) := by
    apply find?_eq_of_unique
    · intro e he hk
      exact setEntry_key_unique c.entries k v e (List.mem_filter.mp he).1 hk
    · exact List.mem_filter.mpr ⟨mem_setEntry _ _ _, by simp⟩
  unfold cacheGet
  rw [hfind]

theorem markReadFrom_of_pos (s r : Nat) (m : Message)
    (hc : (m.sender == s && m.recipient == r && m.read == false) = true) :
    markReadFrom s r m = { m with read := true } := by
  unfold markReadFrom
  exact if_pos hc

theorem markReadFrom_of_neg (s r : Nat) (m : Message)
    (hc : ¬ (m.sender == s && m.recipient == r && m.read == false) = true) :
    markReadFrom s r m = m := by
  unfold markReadFrom
  exact if_neg hc

theorem markReadFrom_idem (s r : Nat) (m : Message) :
    markReadFrom s r (markReadFrom s r m) = markReadFrom s r m := by
  by_cases hc : (m.sender == s && m.recipient == r && m.read == false) = true
  · rw [markReadFrom_of_pos s r m hc]
    apply markReadFrom_of_neg
    simp
  · rw [markReadFrom_of_neg s r m hc, markReadFrom_of_neg s r m hc]

theorem filter_unread_after_mark (l : List Message) (s r : Nat) :
    (l.map (markReadFrom s r)).filter
      (fun m => m.sender == s && m.recipient == r && m.read == false) = [] := by
  rw [List.filter_eq_nil_iff]
  intro m hm
  obtain ⟨m0, hm0, rfl⟩ := List.mem_map.mp hm
  by_cases hc : (m0.sender == s && m0.recipient == r && m0.read == false) = true
  · rw [markReadFrom_of_pos s r m0 hc]
    simp
  · rw [markReadFrom_of_neg s r m0 hc]
    exact hc

theorem read_true_after_mark (l : List Message) (s r : Nat) :
    ∀ m ∈ l.map (markReadFrom s r), m.sender = s → m.recipient = r →
      m.read = true := by
  intro m hm hs hr
  obtain ⟨m0, hm0, rfl⟩ := List.mem_map.mp hm
  by_cases hc : (m0.sender == s && m0.recipient == r && m0.read == false) = true
  · rw [markReadFrom_of_pos s r m0 hc] at hs hr ⊢
  · rw [markReadFrom_of_neg s r m0 hc] at hs hr ⊢
    simp [hs, hr] at hc
    exact hc

theorem map_markReadFrom_idem (l : List Message) (s r : Nat) :
    (l.map (markReadFrom s r)).map (markReadFrom s r)
      = l.map (markReadFrom s r) := by
  rw [List.map_map]
  apply List.map_congr_left
  intro m _
  simp only [Function.comp_apply]
  exact markReadFrom_idem s r m

/-- C6: `markMessagesAsRead` is idempotent.  After a processed (persisting)
call, a second call within the 5-second throttle window is answered from
the cache with count 0 and leaves both store and cache untouched (at most
one persistence update); any later call outside the window, the unread
messages from that sender having been cleared, succeeds with count 0 and
leaves the store unchanged. -/
theorem C6_markRead_idempotent (st st1 : Store) (cache cache1 : ReadCache)
    (t1 t2 senderId recipientId n : Nat)
    (h1 : markMessagesAsRead st cache t1 senderId recipientId
      = (MarkResp.updated n, st1, cache1))
    (h12 : t2 - t1 < 5000) :
    markMessagesAsRead st1 cache1 t2 senderId recipientId
      = (MarkResp.throttled, st1, cache1)
    ∧ (∀ t3, ¬ t3 - cacheGet cache1 (recipientId, senderId) < 5000 →
        ∃ cache2, markMessagesAsRead st1 cache1 t3 senderId recipientId
          = (MarkResp.updated 0, st1, cache2)) := by
  have hth : ¬ t1 - cacheGet cache (recipientId, senderId) < 5000 := by
    intro h
    simp [markMessagesAsRead, h] at h1
  cases hf : findUser st.users senderId with
  | none =>
    exfalso
    simp [markMessagesAsRead, hth, hf] at h1
  | some u =>
    have h1' := h1
    simp only [markMessagesAsRead] at h1'
    rw [if_neg hth, hf] at h1'
    have hcache : cache1 = cacheCleanup (cacheSet cache (recipientId, senderId) t1) t1 :=
      (congrArg (fun p => p.2.2) h1').symm
    have hst : st1 = { st with
        messages := st.messages.map (markReadFrom senderId recipientId) } :=
      (congrArg (fun p => p.2.1) h1').symm
    have hget : cacheGet cache1 (recipientId, senderId) = t1 := by
      rw [hcache]
      exact cacheGet_set_cleanup cache (recipientId, senderId) t1
    constructor
    · simp [markMessagesAsRead, hget, h12]
    · intro t3 ht3
      refine ⟨cacheCleanup (cacheSet cache1 (recipientId, senderId) t3) t3, ?_⟩
      have hfind1 : findUser st1.users senderId = some u := by
        rw [hst]
        exact hf
      have hcount : (st1.messages.filter
          (fun m => m.sender == senderId && m.recipient == recipientId
            && m.read == false)).length = 0 := by
        rw [hst]
        show ((st.messages.map (markReadFrom senderId recipientId)).filter
          (fun m => m.sender == senderId && m.recipient == recipientId
            && m.read == false)).length = 0
        rw [filter_unread_after_mark]
        rfl
      have hmapidem : st1.messages.map (markReadFrom senderId recipientId)
          = st1.messages := by
        rw [hst]
        exact map_markReadFrom_idem st.messages senderId recipientId
      simp [markMessagesAsRead, ht3, hfind1, hcount, hmapidem]
      rw [hst]
      exact read_true_after_mark st.messages senderId recipientId

/-- C6 witness: sender 7, recipient 1; the first call at time 10000 marked
the one unread message read, the second call at 12000 is throttled, and any
later out-of-window call updates zero rows. -/
theorem C6_markRead_idempotent_witness :
    markMessagesAsRead
      ⟨[⟨7, "S", "user", none⟩, ⟨1, "R", "user", none⟩],
       [⟨7, 1, "x", true, 0⟩], 1⟩ ⟨[((1, 7), 10000)]⟩ 12000 7 1
      = (MarkResp.throttled,
         ⟨[⟨7, "S", "user", none⟩, ⟨1, "R", "user", none⟩],
          [⟨7, 1, "x", true, 0⟩], 1⟩, ⟨[((1, 7), 10000)]⟩)
    ∧ (∀ t3, ¬ t3 - cacheGet ⟨[((1, 7), 10000)]⟩ (1, 7) < 5000 →
        ∃ cache2, markMessagesAsRead
          ⟨[⟨7, "S", "user", none⟩, ⟨1, "R", "user", none⟩],
           [⟨7, 1, "x", true, 0⟩], 1⟩ ⟨[((1, 7), 10000)]⟩ t3 7 1
          = (MarkResp.updated 0,
             ⟨[⟨7, "S", "user", none⟩, ⟨1, "R", "user", none⟩],
              [⟨7, 1, "x", true, 0⟩], 1⟩, cache2)) :=
  C6_markRead_idempotent
    ⟨[⟨7, "S", "user", none⟩, ⟨1, "R", "user", none⟩],
     [⟨7, 1, "x", false, 0⟩], 1⟩
    ⟨[⟨7, "S", "user", none⟩, ⟨1, "R", "user", none⟩],
     [⟨7, 1, "x", true, 0⟩], 1⟩
    ⟨[]⟩ ⟨[((1, 7), 10000)]⟩ 10000 12000 7 1 1 rfl (by decide)

/-- C1 (amended): `history(a, b)` returns exactly the messages between `a`
and `b` in either direction, ascending by creation time, and as a side
effect marks every stored message authored by `b` addressed to `a` read; the
returned array, however, carries the pre-update `read` flags, because the
query runs before the `updateMany`. -/
theorem C1_conversation_history (st : Store) (a b : Nat) (u : User)
    (hb : findUser st.users b = some u) :
    ∃ res st1, getConversation st a b = (Except.ok res, st1)
    ∧ List.Perm res (st.messages.filter (betweenFilter a b))
    ∧ res.Sorted msgLe
    ∧ st1.users = st.users
    ∧ st1.messages = st.messages.map (markReadFrom b a)
    ∧ (∀ m ∈ st1.messages, m.sender = b → m.recipient = a → m.read = true) := by
  refine ⟨List.insertionSort msgLe (st.messages.filter (betweenFilter a b)),
    { st with messages := st.messages.map (markReadFrom b a) },
    ?_, ?_, ?_, rfl, rfl, ?_⟩
  · simp [getConversation, hb]
  · exact List.perm_insertionSort msgLe _
  · exact List.sorted_insertionSort msgLe _
  · exact read_true_after_mark st.messages b a

/-- C1 witness: user 2 fetches the conversation with user 1 holding one
unread incoming message. -/
theorem C1_conversation_history_witness :
    ∃ res st1, getConversation ⟨[⟨1, "A", "user", none⟩, ⟨2, "B", "user", none⟩],
        [⟨1, 2, "Hello", false, 0⟩], 1⟩ 2 1 = (Except.ok res, st1)
    ∧ List.Perm res (([⟨1, 2, "Hello", false, 0⟩] : List Message).filter
        (betweenFilter 2 1))
    ∧ res.Sorted msgLe
    ∧ st1.users = [⟨1, "A", "user", none⟩, ⟨2, "B", "user", none⟩]
    ∧ st1.messages = ([⟨1, 2, "Hello", false, 0⟩] : List Message).map
        (markReadFrom 1 2)
    ∧ (∀ m ∈ st1.messages, m.sender = 1 → m.recipient = 2 → m.read = true) :=
  C1_conversation_history
    ⟨[⟨1, "A", "user", none⟩, ⟨2, "B", "user", none⟩],
     [⟨1, 2, "Hello", false, 0⟩], 1⟩ 2 1 ⟨1, "A", "user", none⟩ rfl

/-- C1 counterexample: user 1 sent "Hello" to user 2, still unread; when
user 2 fetches the conversation with user 1, the store's copy flips to
`read = true` but the array returned by that same call still carries
`read = false`, refuting the claim that the returned array contains the
message with `read: true`. -/
theorem C1_counterexample :
    (getConversation ⟨[⟨1, "A", "user", none⟩, ⟨2, "B", "user", none⟩],
        [⟨1, 2, "Hello", false, 0⟩], 1⟩ 2 1).2.messages.map Message.read = [true]
    ∧ ((getConversation ⟨[⟨1, "A", "user", none⟩, ⟨2, "B", "user", none⟩],
        [⟨1, 2, "Hello", false, 0⟩], 1⟩ 2 1).1.toOption.map
          (fun l => l.map Message.read)) = some [false] :=
  ⟨rfl, rfl⟩

/-- In a list sorted ascending by creation time, an element strictly newer
than every other element is the last one. -/
theorem sorted_getLast?_eq (l : List Message) (a : Message) :
    l.Sorted msgLe → a ∈ l → (∀ x ∈ l, x ≠ a → x.createdAt < a.createdAt) →
    l.getLast? = some a := by
  induction l with
  | nil => intro _ ha _; cases ha
  | cons x tl IH =>
    intro hs ha hmax
    cases tl with
    | nil =>
      rw [List.mem_singleton.mp ha]
      rfl
    | cons y tl2 =>
      have hs2 : (y :: tl2).Sorted msgLe := hs.of_cons
      have hxy : msgLe x y := List.rel_of_sorted_cons hs y (List.mem_cons_self y tl2)
      have hamem : a ∈ y :: tl2 := by
        rcases List.mem_cons.mp ha with h | h
        · by_cases hya : y = a
          · rw [← hya]
            exact List.mem_cons_self y tl2
          · exfalso
            have hy : y.createdAt < a.createdAt :=
              hmax y (List.mem_cons_of_mem x (List.mem_cons_self y tl2)) hya
            rw [h] at hy
            unfold msgLe at hxy
            omega
        · exact h
      rw [List.getLast?_cons_cons]
      exact IH hs2 hamem (fun z hz hne => hmax z (List.mem_cons_of_mem x hz) hne)

/-- C7 (amended): for a valid sender, existing recipient and non-empty
content, if no message with that content already exists between the pair,
then `send` followed by `history(sender, recipient)` yields a sequence with
exactly one message of that content, and that message is the last
element. -/
theorem C7_send_then_history (st : Store) (senderId recipientId : Nat)
    (content : String) (u : User)
    (hrec : findUser st.users recipientId = some u)
    (hc : content ≠ "")
    (hwf : ∀ m ∈ st.messages, m.createdAt < st.nextTime)
    (hfresh : ∀ m ∈ st.messages, betweenFilter senderId recipientId m = true →
      m.content ≠ content) :
    ∃ msg st1 res st2,
      sendMessage st senderId (some recipientId) content = (Except.ok msg, st1)
      ∧ getConversation st1 senderId recipientId = (Except.ok res, st2)
      ∧ msg.content = content
      ∧ res.countP (fun m => m.content == content) = 1
      ∧ res.getLast? = some msg := by
  have hM : betweenFilter senderId recipientId
      ⟨senderId, recipientId, content, false, st.nextTime⟩ = true := by
    simp [betweenFilter]
  have hfilter : (st.messages ++
        [(⟨senderId, recipientId, content, false, st.nextTime⟩ : Message)]).filter
        (betweenFilter senderId recipientId)
      = st.messages.filter (betweenFilter senderId recipientId) ++
        [⟨senderId, recipientId, content, false, st.nextTime⟩] := by
    rw [List.filter_append]
    congr 1
    simp [hM]
  refine ⟨⟨senderId, recipientId, content, false, st.nextTime⟩,
    (⟨st.users, st.messages ++ [(⟨senderId, recipientId, content, false, st.nextTime⟩ : Message)], st.nextTime + 1⟩ : Store),
    List.insertionSort msgLe ((st.messages ++
        [(⟨senderId, recipientId, content, false, st.nextTime⟩ : Message)]).filter
      (betweenFilter senderId recipientId)),
    (⟨st.users, (st.messages ++ [(⟨senderId, recipientId, content, false, st.nextTime⟩ : Message)]).map (markReadFrom recipientId senderId), st.nextTime + 1⟩ : Store),
    ?_, ?_, rfl, ?_, ?_⟩
  · simp [sendMessage, hrec, hc]
  · simp [getConversation, hrec]
  · have hperm : List.Perm (List.insertionSort msgLe ((st.messages ++
        [(⟨senderId, recipientId, content, false, st.nextTime⟩ : Message)]).filter
        (betweenFilter senderId recipientId)))
        ((st.messages ++
        [(⟨senderId, recipientId, content, false, st.nextTime⟩ : Message)]).filter
        (betweenFilter senderId recipientId)) :=
      List.perm_insertionSort msgLe _
    rw [hperm.countP_eq, hfilter, List.countP_append]
    have h0 : (st.messages.filter (betweenFilter senderId recipientId)).countP
        (fun m => m.content == content) = 0 := by
      rw [List.countP_eq_zero]
      intro m hm
      have hmem := List.mem_filter.mp hm
      have := hfresh m hmem.1 hmem.2
      simp [this]
    rw [h0]
    simp
  · apply sorted_getLast?_eq
    · exact List.sorted_insertionSort msgLe _
    · rw [List.mem_insertionSort, hfilter]
      exact List.mem_append.mpr (Or.inr (List.mem_singleton.mpr rfl))
    · intro x hx hne
      rw [List.mem_insertionSort, hfilter] at hx
      rcases List.mem_append.mp hx with h | h
      · exact hwf x (List.mem_filter.mp h).1
      · exact absurd (List.mem_singleton.mp h) hne

/-- C7 witness: a fresh conversation, user 1 sends "Hello" to user 2. -/
theorem C7_send_then_history_witness :
    ∃ msg st1 res st2,
      sendMessage ⟨[⟨1, "A", "user", none⟩, ⟨2, "B", "user", none⟩], [], 0⟩
          1 (some 2) "Hello" = (Except.ok msg, st1)
      ∧ getConversation st1 1 2 = (Except.ok res, st2)
      ∧ msg.content = "Hello"
      ∧ res.countP (fun m => m.content == "Hello") = 1
      ∧ res.getLast? = some msg :=
  C7_send_then_history
    ⟨[⟨1, "A", "user", none⟩, ⟨2, "B", "user", none⟩], [], 0⟩ 1 2 "Hello"
    ⟨2, "B", "user", none⟩ rfl (by decide) (by simp) (by simp)

/-- C7 counterexample: the conversation already holds a message with
content "Hello"; after a second valid send of "Hello" the history contains
two messages with that content, not exactly one. -/
theorem C7_counterexample :
    ((sendMessage ⟨[⟨1, "A", "user", none⟩, ⟨2, "B", "user", none⟩],
        [⟨1, 2, "Hello", false, 0⟩], 1⟩ 1 (some 2) "Hello").1.toOption.map
      Message.content) = some "Hello"
    ∧ ((getConversation (sendMessage ⟨[⟨1, "A", "user", none⟩,
        ⟨2, "B", "user", none⟩], [⟨1, 2, "Hello", false, 0⟩], 1⟩
        1 (some 2) "Hello").2 1 2).1.toOption.map
        (fun l => l.countP (fun m => m.content == "Hello"))) = some 2 :=
  ⟨rfl, rfl⟩

/-! ### Contact-sort comparator lemmas -/

theorem strCmpInt_nonpos (x y : String) : strCmpInt x y ≤ 0 ↔ x ≤ y := by
  unfold strCmpInt
  by_cases h1 : x < y
  · rw [if_pos h1]
    simp [le_of_lt h1]
  · rw [if_neg h1]
    by_cases h2 : x = y
    · rw [if_pos h2]
      simp [le_of_eq h2]
    · rw [if_neg h2]
      have hy : ¬ x ≤ y := fun h => (lt_or_eq_of_le h).elim h1 h2
      simp [hy]

/-- The comparator's weak order coincides with the order the spec
describes. -/
theorem contactLE_iff (a b : ContactView) : contactLE a b ↔ specContactLE a b := by
  unfold contactLE contactCmp specContactLE
  by_cases h1 : b.unreadCount = a.unreadCount
  · by_cases ha : a.lastMessageTime = "" <;> by_cases hb : b.lastMessageTime = "" <;>
      simp [h1, ha, hb, strCmpInt_nonpos]
  · rw [if_pos h1]
    simp only [h1, false_and, and_false, or_false]
    omega

theorem specContactLE_total (a b : ContactView) :
    specContactLE a b ∨ specContactLE b a := by
  unfold specContactLE
  rcases Nat.lt_trichotomy b.unreadCount a.unreadCount with h | h | h
  · left; left; exact h
  · by_cases ha : a.lastMessageTime = "" <;> by_cases hb : b.lastMessageTime = ""
    · rcases le_total a.fullName b.fullName with hn | hn
      · left; right; exact ⟨h, Or.inr (Or.inr ⟨ha, hb, hn⟩)⟩
      · right; right; exact ⟨h.symm, Or.inr (Or.inr ⟨hb, ha, hn⟩)⟩
    · right; right; exact ⟨h.symm, Or.inr (Or.inl ⟨hb, ha⟩)⟩
    · left; right; exact ⟨h, Or.inr (Or.inl ⟨ha, hb⟩)⟩
    · rcases le_total b.lastMessageTime a.lastMessageTime with hl | hl
      · left; right; exact ⟨h, Or.inl ⟨ha, hb, hl⟩⟩
      · right; right; exact ⟨h.symm, Or.inl ⟨hb, ha, hl⟩⟩
  · right; left; exact h

theorem specContactLE_trans (a b c : ContactView)
    (hab : specContactLE a b) (hbc : specContactLE b c) : specContactLE a c := by
  unfold specContactLE at hab hbc ⊢
  rcases hab with hab | ⟨hab1, hab2⟩
  · rcases hbc with hbc | ⟨hbc1, hbc2⟩
    · left; omega
    · left; omega
  · rcases hbc with hbc | ⟨hbc1, hbc2⟩
    · left; omega
    · right
      refine ⟨by omega, ?_⟩
      rcases hab2 with ⟨ha, hb, hl⟩ | ⟨ha, hb⟩ | ⟨ha, hb, hn⟩
      · rcases hbc2 with ⟨hb2, hc, hl2⟩ | ⟨hb2, hc⟩ | ⟨hb2, hc, hn2⟩
        · exact Or.inl ⟨ha, hc, le_trans hl2 hl⟩
        · exact Or.inr (Or.inl ⟨ha, hc⟩)
        · exact absurd hb2 hb
      · rcases hbc2 with ⟨hb2, hc, hl2⟩ | ⟨hb2, hc⟩ | ⟨hb2, hc, hn2⟩
        · exact absurd hb hb2
        · exact absurd hb hb2
        · exact Or.inr (Or.inl ⟨ha, hc⟩)
      · rcases hbc2 with ⟨hb2, hc, hl2⟩ | ⟨hb2, hc⟩ | ⟨hb2, hc, hn2⟩
        · exact absurd hb hb2
        · exact absurd hb hb2
        · exact Or.inr (Or.inr ⟨ha, hc, le_trans hn hn2⟩)

theorem specContactLE_unread (a b : ContactView) (h : specContactLE a b) :
    b.unreadCount ≤ a.unreadCount := by
  rcases h with h | ⟨h, _⟩
  · omega
  · omega

/-- C5: the contact list returned by `getChatContacts` is pairwise ordered
by the spec order — unread count descending, then (both labelled) label
string descending, labelled before unlabelled, then display name ascending
— and in particular pairwise by unread count descending, so a candidate
with more unread messages always precedes one with fewer regardless of
recency. -/
theorem C5_contact_sort_order (fmt : Message → String) (st : Store)
    (meId : Nat) (views : List ContactView)
    (h : getChatContacts fmt st meId = some views) :
    views.Pairwise specContactLE
    ∧ views.Pairwise (fun x y => y.unreadCount ≤ x.unreadCount) := by
  haveI htot : IsTotal ContactView contactLE :=
    ⟨fun x y => by
      rw [contactLE_iff, contactLE_iff]
      exact specContactLE_total x y⟩
  haveI htr : IsTrans ContactView contactLE :=
    ⟨fun x y z hxy hyz => (contactLE_iff x z).mpr
      (specContactLE_trans x y z ((contactLE_iff x y).mp hxy)
        ((contactLE_iff y z).mp hyz))⟩
  cases hfu : findUser st.users meId with
  | none => simp [getChatContacts, hfu] at h
  | some cu =>
    simp only [getChatContacts, hfu] at h
    have hv := Option.some.inj h
    subst hv
    constructor
    · refine List.Pairwise.imp ?_ (List.sorted_insertionSort contactLE _)
      exact fun hx => (contactLE_iff _ _).mp hx
    · refine List.Pairwise.imp ?_ (List.sorted_insertionSort contactLE _)
      exact fun hx => specContactLE_unread _ _ ((contactLE_iff _ _).mp hx)

/-- C5 witness: an admin requester with two other users, one unread
message pending from user 2. -/
theorem C5_contact_sort_order_witness :
    ((getChatContacts (fun _ => "t")
        ⟨[⟨1, "Me", "admin", none⟩, ⟨2, "B", "user", none⟩, ⟨3, "C", "user", none⟩],
         [⟨2, 1, "hi", false, 0⟩], 1⟩ 1).getD []).Pairwise specContactLE
    ∧ ((getChatContacts (fun _ => "t")
        ⟨[⟨1, "Me", "admin", none⟩, ⟨2, "B", "user", none⟩, ⟨3, "C", "user", none⟩],
         [⟨2, 1, "hi", false, 0⟩], 1⟩ 1).getD []).Pairwise
        (fun x y => y.unreadCount ≤ x.unreadCount) :=
  C5_contact_sort_order (fun _ => "t")
    ⟨[⟨1, "Me", "admin", none⟩, ⟨2, "B", "user", none⟩, ⟨3, "C", "user", none⟩],
     [⟨2, 1, "hi", false, 0⟩], 1⟩ 1
    ((getChatContacts (fun _ => "t")
        ⟨[⟨1, "Me", "admin", none⟩, ⟨2, "B", "user", none⟩, ⟨3, "C", "user", none⟩],
         [⟨2, 1, "hi", false, 0⟩], 1⟩ 1).getD []) rfl

/-! ### Contact-resolution lemmas -/

theorem findUser_id (users : List User) (uid : Nat) (u : User)
    (h : findUser users uid = some u) : u.id = uid := by
  unfold findUser at h
  have h2 := List.find?_some h
  exact eq_of_beq h2

theorem findUser_mem (users : List User) (uid : Nat) (u : User)
    (h : findUser users uid = some u) : u ∈ users := by
  unfold findUser at h
  exact List.mem_of_find?_eq_some h

theorem mem_addUnique (l : List Nat) (x : Nat) : x ∈ addUnique l x := by
  unfold addUnique
  by_cases h : x ∈ l
  · rw [if_pos h]
    exact h
  · rw [if_neg h]
    exact List.mem_append.mpr (Or.inr (List.mem_singleton.mpr rfl))

theorem subset_addUnique (l : List Nat) (x y : Nat) (h : y ∈ l) :
    y ∈ addUnique l x := by
  unfold addUnique
  by_cases hx : x ∈ l
  · rw [if_pos hx]
    exact h
  · rw [if_neg hx]
    exact List.mem_append.mpr (Or.inl h)

theorem subset_partnerStep (me : Nat) (acc : List Nat) (m : Message) (y : Nat)
    (h : y ∈ acc) : y ∈ partnerStep me acc m := by
  simp only [partnerStep]
  by_cases h1 : m.sender ≠ me
  · rw [if_pos h1]
    by_cases h2 : m.recipient ≠ me
    · rw [if_pos h2]
      exact subset_addUnique _ _ _ (subset_addUnique _ _ _ h)
    · rw [if_neg h2]
      exact subset_addUnique _ _ _ h
  · rw [if_neg h1]
    by_cases h2 : m.recipient ≠ me
    · rw [if_pos h2]
      exact subset_addUnique _ _ _ h
    · rw [if_neg h2]
      exact h

theorem mem_foldl_partnerStep_of_acc (me : Nat) (l : List Message)
    (acc : List Nat) (y : Nat) (h : y ∈ acc) :
    y ∈ l.foldl (partnerStep me) acc := by
  induction l generalizing acc with
  | nil => exact h
  | cons m tl IH => exact IH _ (subset_partnerStep me acc m y h)

theorem mem_partnerStep_self (me pid : Nat) (acc : List Nat) (m : Message)
    (hdir : m.sender = pid ∨ m.recipient = pid) (hne : pid ≠ me) :
    pid ∈ partnerStep me acc m := by
  simp only [partnerStep]
  rcases hdir with hs | hr
  · have h1 : m.sender ≠ me := by rw [hs]; exact hne
    rw [if_pos h1]
    by_cases h2 : m.recipient ≠ me
    · rw [if_pos h2, hs]
      exact subset_addUnique _ _ _ (mem_addUnique acc pid)
    · rw [if_neg h2, hs]
      exact mem_addUnique acc pid
  · have h2 : m.recipient ≠ me := by rw [hr]; exact hne
    by_cases h1 : m.sender ≠ me
    · rw [if_pos h1, if_pos h2, hr]
      exact mem_addUnique _ pid
    · rw [if_neg h1, if_pos h2, hr]
      exact mem_addUnique _ pid

theorem mem_foldl_partnerStep (me pid : Nat) (hne : pid ≠ me) :
    ∀ (l : List Message) (acc : List Nat),
      (∃ m ∈ l, m.sender = pid ∨ m.recipient = pid) →
      pid ∈ l.foldl (partnerStep me) acc := by
  intro l
  induction l with
  | nil =>
    rintro acc ⟨m, hm, _⟩
    cases hm
  | cons m0 tl IH =>
    rintro acc ⟨m, hm, hdir⟩
    rw [List.foldl_cons]
    rcases List.mem_cons.mp hm with h | h
    · apply mem_foldl_partnerStep_of_acc
      rw [← h]
      exact mem_partnerStep_self me pid acc m hdir hne
    · exact IH _ ⟨m, h, hdir⟩

theorem mem_messagePartnerIds (st : Store) (me pid : Nat) (m : Message)
    (hm : m ∈ st.messages)
    (hdir : (m.sender = me ∧ m.recipient = pid)
      ∨ (m.sender = pid ∧ m.recipient = me))
    (hne : pid ≠ me) :
    pid ∈ messagePartnerIds st me := by
  unfold messagePartnerIds
  apply mem_foldl_partnerStep me pid hne
  refine ⟨m, ?_, ?_⟩
  · rw [List.mem_insertionSort]
    apply List.mem_filter.mpr
    refine ⟨hm, ?_⟩
    rcases hdir with ⟨h1, h2⟩ | ⟨h1, h2⟩
    · simp [h1]
    · simp [h2]
  · rcases hdir with ⟨h1, h2⟩ | ⟨h1, h2⟩
    · right; exact h2
    · left; exact h1

theorem mem_mergeContacts_left (rcs : List User) :
    ∀ (ws : List User) (x : User), x ∈ ws → x ∈ mergeContacts ws rcs := by
  induction rcs with
  | nil => intro ws x h; exact h
  | cons c tl IH =>
    intro ws x h
    unfold mergeContacts
    rw [List.foldl_cons]
    apply IH
    by_cases hc : ws.any (fun z => z.id == c.id) = true
    · rw [if_pos hc]
      exact h
    · rw [if_neg hc]
      exact List.mem_append.mpr (Or.inl h)

theorem mem_ids_mergeContacts (rcs : List User) :
    ∀ (ws : List User) (c : User), c ∈ rcs →
      c.id ∈ (mergeContacts ws rcs).map User.id := by
  induction rcs with
  | nil => intro ws c h; cases h
  | cons c0 tl IH =>
    intro ws c h
    unfold mergeContacts
    rw [List.foldl_cons]
    rcases List.mem_cons.mp h with h | h
    · have hstep : ∃ z ∈ (if ws.any (fun x => x.id == c0.id) = true
          then ws else ws ++ [c0]), z.id = c0.id := by
        by_cases hc : ws.any (fun x => x.id == c0.id) = true
        · rw [if_pos hc]
          obtain ⟨z, hz, hzid⟩ := List.any_eq_true.mp hc
          exact ⟨z, hz, eq_of_beq hzid⟩
        · rw [if_neg hc]
          exact ⟨c0, List.mem_append.mpr (Or.inr (List.mem_singleton.mpr rfl)), rfl⟩
      obtain ⟨z, hz, hzid⟩ := hstep
      have hzm := mem_mergeContacts_left tl _ z hz
      rw [h]
      exact List.mem_map.mpr ⟨z, hzm, hzid⟩
    · exact IH _ c h

theorem nodup_ids_mergeContacts (rcs : List User) :
    ∀ (ws : List User), (ws.map User.id).Nodup →
      ((mergeContacts ws rcs).map User.id).Nodup := by
  induction rcs with
  | nil => intro ws h; exact h
  | cons c tl IH =>
    intro ws h
    unfold mergeContacts
    rw [List.foldl_cons]
    apply IH
    by_cases hc : ws.any (fun x => x.id == c.id) = true
    · rw [if_pos hc]
      exact h
    · rw [if_neg hc]
      have hnotin : c.id ∉ ws.map User.id := by
        intro hmem
        obtain ⟨z, hz, hzid⟩ := List.mem_map.mp hmem
        exact hc (List.any_eq_true.mpr ⟨z, hz, by simp [hzid]⟩)
      rw [List.map_append]
      exact (List.perm_append_singleton c.id _).symm.nodup
        (List.nodup_cons.mpr ⟨hnotin, h⟩)

theorem ids_contactStats (fmt : Message → String) (st : Store) (me : Nat)
    (l : List User) :
    (l.map (contactStats fmt st me)).map ContactView.id = l.map User.id := by
  rw [List.map_map]
  apply List.map_congr_left
  intro u _
  rfl

theorem getChatContacts_eq (fmt : Message → String) (st : Store) (meId : Nat)
    (cu : User) (hme : findUser st.users meId = some cu) :
    getChatContacts fmt st meId
      = some (sortContacts ((mergeContacts (contactsWithMessages st cu.id)
          (roleContacts st cu)).map (contactStats fmt st cu.id))) := by
  simp [getChatContacts, hme]

theorem ids_sortContacts_perm (fmt : Message → String) (st : Store) (me : Nat)
    (l : List User) :
    List.Perm ((sortContacts (l.map (contactStats fmt st me))).map ContactView.id)
      (l.map User.id) := by
  have h1 := (List.perm_insertionSort contactLE (l.map (contactStats fmt st me))).map
    ContactView.id
  rw [ids_contactStats] at h1
  exact h1

theorem nodup_ids_contactsWithMessages (st : Store) (me : Nat)
    (hnodup : (st.users.map User.id).Nodup) :
    ((contactsWithMessages st me).map User.id).Nodup := by
  unfold contactsWithMessages
  by_cases h : (messagePartnerIds st me).length > 0
  · rw [if_pos h]
    exact hnodup.sublist ((List.filter_sublist _).map _)
  · rw [if_neg h]
    exact List.nodup_nil

/-- C3: a user with whom the requester has at least one prior message (in
either direction) is always in the contact-resolution result, whatever both
users' roles; and the result carries each user id at most once. -/
theorem C3_prior_partner_included (fmt : Message → String) (st : Store)
    (meId pid : Nat) (cu pu : User) (m : Message)
    (hme : findUser st.users meId = some cu)
    (hnodup : (st.users.map User.id).Nodup)
    (hpu : pu ∈ st.users) (hpid : pu.id = pid)
    (hne : pid ≠ meId)
    (hm : m ∈ st.messages)
    (hdir : (m.sender = meId ∧ m.recipient = pid)
      ∨ (m.sender = pid ∧ m.recipient = meId)) :
    ∃ views, getChatContacts fmt st meId = some views
    ∧ pid ∈ views.map ContactView.id
    ∧ (views.map ContactView.id).Nodup := by
  have hcuid : cu.id = meId := findUser_id st.users meId cu hme
  have hperm := ids_sortContacts_perm fmt st cu.id
    (mergeContacts (contactsWithMessages st cu.id) (roleContacts st cu))
  refine ⟨_, getChatContacts_eq fmt st meId cu hme, ?_, ?_⟩
  · rw [hperm.mem_iff]
    have hpartner : pid ∈ messagePartnerIds st cu.id := by
      rw [hcuid]
      exact mem_messagePartnerIds st meId pid m hm hdir hne
    have hws : pu ∈ contactsWithMessages st cu.id := by
      unfold contactsWithMessages
      rw [if_pos (List.length_pos.mpr (List.ne_nil_of_mem hpartner))]
      apply List.mem_filter.mpr
      refine ⟨hpu, ?_⟩
      rw [hpid]
      simpa using hpartner
    exact List.mem_map.mpr
      ⟨pu, mem_mergeContacts_left _ _ pu hws, hpid⟩
  · rw [hperm.nodup_iff]
    exact nodup_ids_mergeContacts _ _ (nodup_ids_contactsWithMessages st cu.id hnodup)

/-- C3 witness: requester 1 has an unrecognized role ("x", whose role rule
yields only admins — none exist), yet user 2 appears in the result because
of the prior message. -/
theorem C3_prior_partner_included_witness :
    ∃ views, getChatContacts (fun _ => "t")
        ⟨[⟨1, "Me", "x", none⟩, ⟨2, "P", "user", none⟩],
         [⟨2, 1, "hi", false, 0⟩], 1⟩ 1 = some views
    ∧ 2 ∈ views.map ContactView.id
    ∧ (views.map ContactView.id).Nodup :=
  C3_prior_partner_included (fun _ => "t")
    ⟨[⟨1, "Me", "x", none⟩, ⟨2, "P", "user", none⟩],
     [⟨2, 1, "hi", false, 0⟩], 1⟩ 1 2
    ⟨1, "Me", "x", none⟩ ⟨2, "P", "user", none⟩ ⟨2, 1, "hi", false, 0⟩
    rfl (by decide) (by decide) rfl (by decide) (by decide) (by decide)

theorem roleContacts_user (st : Store) (cu : User) (mid : Nat) (M : User)
    (hrole : cu.role = "user") (hmentor : cu.mentor = some mid)
    (hM : findUser st.users mid = some M) :
    roleContacts st cu = [M] ++ st.users.filter (fun u => u.role == "admin")
      ++ st.users.filter (fun u => u.role == "mentor") := by
  unfold roleContacts
  rw [if_pos hrole, hmentor]
  show (match findUser st.users mid with
      | some m => [m]
      | none => []) ++ st.users.filter (fun u => u.role == "admin")
      ++ st.users.filter (fun u => u.role == "mentor")
    = [M] ++ st.users.filter (fun u => u.role == "admin")
      ++ st.users.filter (fun u => u.role == "mentor")
  rw [hM]

theorem roleContacts_mentor (st : Store) (M : User)
    (hMrole : M.role = "mentor") :
    roleContacts st M = st.users.filter (fun u => u.mentor == some M.id)
      ++ st.users.filter (fun u => u.role == "admin")
      ++ st.users.filter (fun u => u.role == "user") := by
  unfold roleContacts
  rw [hMrole]
  rw [if_neg (by decide : ¬ ("mentor" : String) = "user")]
  rw [if_pos (rfl : ("mentor" : String) = "mentor")]

/-- C4: a role-`user` requester with an existing assigned mentor always
resolves a contact list containing that mentor, every admin and every
mentor; symmetrically the mentor's own contact list contains the
mentee. -/
theorem C4_mentor_mentee_contacts (fmt : Message → String) (st : Store)
    (uid mid : Nat) (cu M : User)
    (hu : findUser st.users uid = some cu)
    (hrole : cu.role = "user")
    (hmentor : cu.mentor = some mid)
    (hM : findUser st.users mid = some M)
    (hMrole : M.role = "mentor") :
    (∃ views, getChatContacts fmt st uid = some views
      ∧ mid ∈ views.map ContactView.id
      ∧ (∀ v ∈ st.users, v.role = "admin" → v.id ∈ views.map ContactView.id)
      ∧ (∀ v ∈ st.users, v.role = "mentor" → v.id ∈ views.map ContactView.id))
    ∧ (∃ views2, getChatContacts fmt st mid = some views2
      ∧ uid ∈ views2.map ContactView.id) := by
  have hcuid : cu.id = uid := findUser_id st.users uid cu hu
  have hMid : M.id = mid := findUser_id st.users mid M hM
  constructor
  · have hperm := ids_sortContacts_perm fmt st cu.id
      (mergeContacts (contactsWithMessages st cu.id) (roleContacts st cu))
    have hrc : ∀ x ∈ roleContacts st cu,
        x.id ∈ ((sortContacts ((mergeContacts (contactsWithMessages st cu.id)
          (roleContacts st cu)).map (contactStats fmt st cu.id))).map ContactView.id) := by
      intro x hx
      rw [hperm.mem_iff]
      exact mem_ids_mergeContacts _ _ x hx
    have hrcl := roleContacts_user st cu mid M hrole hmentor hM
    refine ⟨_, getChatContacts_eq fmt st uid cu hu, ?_, ?_, ?_⟩
    · rw [← hMid]
      apply hrc
      rw [hrcl]
      exact List.mem_append.mpr (Or.inl (List.mem_append.mpr
        (Or.inl (List.mem_singleton.mpr rfl))))
    · intro v hv hvrole
      apply hrc
      rw [hrcl]
      exact List.mem_append.mpr (Or.inl (List.mem_append.mpr
        (Or.inr (List.mem_filter.mpr ⟨hv, by simp [hvrole]⟩))))
    · intro v hv hvrole
      apply hrc
      rw [hrcl]
      exact List.mem_append.mpr (Or.inr (List.mem_filter.mpr
        ⟨hv, by simp [hvrole]⟩))
  · have hperm := ids_sortContacts_perm fmt st M.id
      (mergeContacts (contactsWithMessages st M.id) (roleContacts st M))
    have hrc : ∀ x ∈ roleContacts st M,
        x.id ∈ ((sortContacts ((mergeContacts (contactsWithMessages st M.id)
          (roleContacts st M)).map (contactStats fmt st M.id))).map ContactView.id) := by
      intro x hx
      rw [hperm.mem_iff]
      exact mem_ids_mergeContacts _ _ x hx
    refine ⟨_, getChatContacts_eq fmt st mid M hM, ?_⟩
    rw [← hcuid]
    apply hrc
    rw [roleContacts_mentor st M hMrole]
    apply List.mem_append.mpr
    apply Or.inl
    apply List.mem_append.mpr
    apply Or.inl
    apply List.mem_filter.mpr
    refine ⟨findUser_mem st.users uid cu hu, ?_⟩
    simp [hmentor, hMid]

/-- C4 witness: user 1 has mentor 2 assigned; user 3 is an admin and user 4
another mentor. -/
theorem C4_mentor_mentee_contacts_witness :
    (∃ views, getChatContacts (fun _ => "t")
        ⟨[⟨1, "U", "user", some 2⟩, ⟨2, "M", "mentor", none⟩,
          ⟨3, "Ad", "admin", none⟩, ⟨4, "M2", "mentor", none⟩], [], 0⟩ 1
        = some views
      ∧ 2 ∈ views.map ContactView.id
      ∧ (∀ v ∈ [(⟨1, "U", "user", some 2⟩ : User), ⟨2, "M", "mentor", none⟩,
          ⟨3, "Ad", "admin", none⟩, ⟨4, "M2", "mentor", none⟩],
          v.role = "admin" → v.id ∈ views.map ContactView.id)
      ∧ (∀ v ∈ [(⟨1, "U", "user", some 2⟩ : User), ⟨2, "M", "mentor", none⟩,
          ⟨3, "Ad", "admin", none⟩, ⟨4, "M2", "mentor", none⟩],
          v.role = "mentor" → v.id ∈ views.map ContactView.id))
    ∧ (∃ views2, getChatContacts (fun _ => "t")
        ⟨[⟨1, "U", "user", some 2⟩, ⟨2, "M", "mentor", none⟩,
          ⟨3, "Ad", "admin", none⟩, ⟨4, "M2", "mentor", none⟩], [], 0⟩ 2
        = some views2
      ∧ 1 ∈ views2.map ContactView.id) :=
  C4_mentor_mentee_contacts (fun _ => "t")
    ⟨[⟨1, "U", "user", some 2⟩, ⟨2, "M", "mentor", none⟩,
      ⟨3, "Ad", "admin", none⟩, ⟨4, "M2", "mentor", none⟩], [], 0⟩ 1 2
    ⟨1, "U", "user", some 2⟩ ⟨2, "M", "mentor", none⟩
    rfl rfl rfl rfl rfl

/-- C2: the send failure taxonomy as the code implements it.  A 400
(`ValidationError`) occurs exactly when the recipient id is missing from
the body or the content is empty; a present recipient id that resolves to
no user yields 404 (`NotFoundError`), not 400; on every failure the store
is unchanged, so no message is created. -/
theorem C2_send_failure_taxonomy (st : Store) (senderId : Nat)
    (recipientId : Option Nat) (content : String) :
    ((∃ m, (sendMessage st senderId recipientId content).1 = Except.error ⟨400, m⟩)
      ↔ recipientId = none ∨ content = "")
    ∧ ((∃ m, (sendMessage st senderId recipientId content).1 = Except.error ⟨404, m⟩)
      ↔ ∃ rid, recipientId = some rid ∧ content ≠ ""
          ∧ findUser st.users rid = none)
    ∧ (∀ e, (sendMessage st senderId recipientId content).1 = Except.error e →
        (sendMessage st senderId recipientId content).2 = st) := by
  cases recipientId with
  | none => simp [sendMessage]
  | some rid =>
    by_cases hc : content = ""
    · simp [sendMessage, hc]
    · cases hf : findUser st.users rid with
      | none => simp [sendMessage, hc, hf]
      | some u => simp [sendMessage, hc, hf]

/-- C2 counterexample: with only user 1 in the store, sending to the
non-existent user 99 with non-empty content fails with status 404
(`NotFoundError`), not the 400 `ValidationError` the claim assigns to a
non-resolving recipient; the store is unchanged. -/
theorem C2_counterexample :
    (sendMessage ⟨[⟨1, "A", "user", none⟩], [], 0⟩ 1 (some 99) "Hi").1
      = Except.error ⟨404, "Recipient not found"⟩
    ∧ (sendMessage ⟨[⟨1, "A", "user", none⟩], [], 0⟩ 1 (some 99) "Hi").2
      = ⟨[⟨1, "A", "user", none⟩], [], 0⟩
    ∧ (404 : Nat) ≠ 400 :=
  ⟨rfl, rfl, by decide⟩
